import Mathlib

/-!
Shallow embedding of `api/scanner/scanner_user.go` (photoview): the album
tree scanner (`findAlbumsForUser`), the subtree classifier
(`directoryContainsPhotos`), the reconciler (`deleteOldUserAlbums`) and the
cache-root configuration helper (`PhotoCache`).

Go machine state is made explicit: the relational store is a list of album
rows, the filesystem is a pure oracle, fallible storage operations are
driven by explicit fault oracles, and the two breadth-first loops carry
fuel (the real filesystem is finite so every real run terminates; running
out of fuel is reported as a distinguished exit of the model).  Ghost
outputs (the list of directories handed to `ReadDir`, the exit kind of a
walk, the trace of reconciliation events) record what the Go code merely
does as side effects, so that ordering and access claims become statable.

Go's `path.Join`/`path.Base` are modelled without path cleaning: every
path fed to them here is built from a root and slash-free entry names, on
which cleaning is the identity.
-/

/-- Go `path.Join(a, b)` on already-clean components: `a ++ "/" ++ b`. -/
def pathJoin (a b : String) : String := a ++ "/" ++ b

/-- Go `path.Base` on clean slash-separated paths without trailing
slash: the final segment, i.e. the characters after the last `/`
(implemented on the character list so it reduces by computation). -/
def pathBase (p : String) : String :=
  String.mk ((p.data.reverse.takeWhile (fun c => !(c == '/'))).reverse)

/-- Go `s[0:1] == "."` (scanner_user.go line 97) on the nonempty names
the scanner feeds it: the hidden-name test on the first character. -/
def startsWithDot (s : String) : Bool :=
  match s.data with
  | [] => false
  | c :: _ => c == '.'

/-- The album containment cache: an association list, most recent insert
first (`AlbumScannerCache`: its Go file is not part of the excerpt). -/
def Cache : Type := List (String × Bool)

instance : DecidableEq Cache := by unfold Cache; infer_instance

/-- Modelled from the spec: `lookup(path)` of the Album Containment Cache
(`AlbumScannerCache.AlbumContainsPhotos`, not in the excerpt) — returns
the memoized containment result if present, otherwise "unknown". -/
def Cache.albumContainsPhotos (c : Cache) (p : String) : Option Bool :=
  (c.find? (fun e => e.1 == p)).map (fun e => e.2)

/-- Modelled from the spec: `insert(path, containsImage)` of the Album
Containment Cache (`AlbumScannerCache.InsertAlbumPath`, not in the
excerpt) — records a single directory's result; the newest entry for a
path wins. -/
def Cache.insertAlbumPath (c : Cache) (p : String) (b : Bool) : Cache :=
  (p, b) :: c

/-- Modelled from the spec: `insertSubtree(directoryPath, rootPath,
containsImage)` (`AlbumScannerCache.InsertAlbumPaths`, not in the
excerpt) — records the result for the directory where the walk stopped
and for the original query root, so a positive found deep in the walk
also short-circuits the ancestor query that triggered it.  Intermediate
ancestors are not modelled; no claim depends on them. -/
def Cache.insertAlbumPaths (c : Cache) (dirPath rootPath : String) (b : Bool) : Cache :=
  (c.insertAlbumPath dirPath b).insertAlbumPath rootPath b

/-- One entry returned by `ioutil.ReadDir`: a name and an is-directory
flag (the only fields the scanner consults). -/
structure FSEntry where
  name : String
  isDir : Bool
deriving DecidableEq, Repr

/-- Result of `os.Stat` on the user's root, keeping the code's
`os.IsNotExist` distinction. -/
inductive StatResult where
  | ok
  | notExist
  | otherError
deriving DecidableEq, Repr

/-- The filesystem oracle.  `readDir p = none` models an `ioutil.ReadDir`
failure.  `isPathImage` is modelled from the spec: the image classifier
(`isPathImage`, not in the excerpt) is a pure predicate on the file path;
probe errors are already folded into a `false` answer. -/
structure FS where
  stat : String → StatResult
  readDir : String → Option (List FSEntry)
  isPathImage : String → Bool

/-- Which exit path `directoryContainsPhotos` took. -/
inductive ExitKind where
  | cacheHit
  | foundImage
  | exhausted
  | readError
  | outOfFuel
deriving DecidableEq, Repr

/-- Result of a `directoryContainsPhotos` call: the returned boolean, the
cache afterwards, the ghost list of directories handed to `ReadDir`
(exactly the Go `scanned_directories` list, which is appended to right
before each `ReadDir` call), and the ghost exit kind. -/
structure CPResult where
  result : Bool
  cache : Cache
  scanned : List String
  exit : ExitKind
deriving DecidableEq

/-- The inner entry loop of `directoryContainsPhotos` (lines 140-150):
walk the listing in order; directory entries are collected for the queue;
at the first non-directory entry classified as an image return `none`
("image found", the Go `return true`); otherwise return the subdirectory
paths in listing order.  Note there is no hidden-name filter here. -/
def findImageOrSubdirs (fs : FS) (dirPath : String) : List FSEntry → Option (List String)
  | [] => some []
  | e :: rest =>
    let filePath := pathJoin dirPath e.name
    if e.isDir then
      (findImageOrSubdirs fs dirPath rest).map (fun l => filePath :: l)
    else if fs.isPathImage filePath then
      none
    else
      findImageOrSubdirs fs dirPath rest

/-- The breadth-first queue loop of `directoryContainsPhotos`
(lines 127-157).  `scanned` accumulates the Go `scanned_directories`
list.  A `ReadDir` failure returns `false` for the whole query at once,
caching nothing; queue exhaustion records every scanned directory as
negative and returns `false`; a found image records a positive for the
current directory and the original root and returns `true`. -/
def cpLoop (fs : FS) (rootPath : String) :
    Nat → List String → List String → Cache → CPResult
  | _, [], scanned, c =>
    ⟨false, scanned.foldl (fun c p => c.insertAlbumPath p false) c, scanned, .exhausted⟩
  | 0, _ :: _, scanned, c => ⟨false, c, scanned, .outOfFuel⟩
  | fuel + 1, dirPath :: rest, scanned, c =>
    let scanned := scanned ++ [dirPath]
    match fs.readDir dirPath with
    | none => ⟨false, c, scanned, .readError⟩
    | some dirContent =>
      match findImageOrSubdirs fs dirPath dirContent with
      | none => ⟨true, c.insertAlbumPaths dirPath rootPath true, scanned, .foundImage⟩
      | some subdirs => cpLoop fs rootPath fuel (rest ++ subdirs) scanned c

/-- Model of `directoryContainsPhotos` (lines 116-158): answer from the cache when
possible, otherwise run the breadth-first walk from `rootPath`. -/
def directoryContainsPhotos (fs : FS) (fuel : Nat) (rootPath : String) (cache : Cache) :
    CPResult :=
  match cache.albumContainsPhotos rootPath with
  | some b => ⟨b, cache, [], .cacheHit⟩
  | none => cpLoop fs rootPath fuel [rootPath] [] cache

/-- An album row (`models.Album`, consumed through its fields `AlbumID`,
`Title`, `ParentAlbum`, `OwnerID`, `Path`). Identifiers are the store's
auto-increment keys, modelled as naturals. -/
structure Album where
  albumID : Nat
  title : String
  parentAlbum : Option Nat
  ownerID : Nat
  path : String
deriving DecidableEq, Repr

/-- The relational store: the album table plus the auto-increment
counter.  The schema is unique on `(owner_id, path)` with primary key
`album_id`. -/
structure DB where
  albums : List Album
  nextID : Nat
deriving DecidableEq, Repr

/-- Model of `INSERT IGNORE INTO album (title, parent_album, owner_id, path)`
(line 70): a row is appended with a fresh identifier unless a row with
the same `(owner_id, path)` already exists, in which case the insert is
ignored. -/
def DB.insertIgnoreAlbum (db : DB) (title : String) (parent : Option Nat)
    (owner : Nat) (path : String) : DB :=
  if db.albums.any (fun a => a.ownerID == owner && a.path == path) then db
  else ⟨db.albums ++ [⟨db.nextID, title, parent, owner, path⟩], db.nextID + 1⟩

/-- Model of `SELECT * FROM album WHERE path = ?` via `QueryRow` (line 77): the
first row whose path matches, in table order — note the query does not
filter by owner. -/
def DB.selectAlbumByPath (db : DB) (p : String) : Option Album :=
  db.albums.find? (fun a => a.path == p)

/-- The scanned user (`models.User`: `UserID`, `RootPath`, `Username`). -/
structure User where
  userID : Nat
  rootPath : String
  username : String
deriving DecidableEq, Repr

/-- The accumulated errors of `findAlbumsForUser` and
`deleteOldUserAlbums`, tagged by origin (the Go code accumulates wrapped
untyped errors; the tag records which `errors.Wrap` site produced it). -/
inductive ScanError where
  | rootNotExist (p : String)
  | rootUnreadable (p : String)
  | readDir (p : String)
  | beginTx (p : String)
  | insertAlbum (p : String)
  | getAlbum (p : String)
  | commitTx (p : String)
  | queryAlbums
  | scanRow (id : Nat)
  | removeCache (p : String)
  | deleteAlbums
deriving DecidableEq, Repr

/-- Ghost trace of the reconciler's externally visible actions:
`os.RemoveAll` on a cache directory (line 194) and the bulk
`DELETE FROM album` statement (line 203), in execution order. -/
inductive RecEvent where
  | removeCacheDir (p : String)
  | deleteRows (ids : List Nat)
deriving DecidableEq, Repr

/-- Fault oracle for the reconciler's fallible operations: the stale-row
query, `rows.Scan` per row, `os.RemoveAll` per cache path, and the bulk
delete statement. -/
structure RecFaults where
  queryFails : Bool
  scanRowFails : Nat → Bool
  removeAllFails : String → Bool
  deleteFails : Bool

/-- The cache directory the reconciler removes for an album identifier
(line 193): `path.Join("./photo_cache", strconv.Itoa(album_id))` — the
root is hardcoded, not read from `PhotoCache`. -/
def reconcileCachePath (id : Nat) : String := pathJoin "./photo_cache" (toString id)

/-- The `rows.Next` loop of `deleteOldUserAlbums` (lines 185-198): for
each stale identifier, a `Scan` failure records an error and skips the
row; otherwise the identifier is collected for deletion and then the
cache directory removal is attempted, a removal failure only recording
an error.  Returns (errors, collected identifiers, event trace), each in
execution order. -/
def reconcileRows (faults : RecFaults) :
    List Nat → List ScanError × List Nat × List RecEvent
  | [] => ([], [], [])
  | id :: rest =>
    let rr := reconcileRows faults rest
    if faults.scanRowFails id then (.scanRow id :: rr.1, rr.2.1, rr.2.2)
    else
      let cp := reconcileCachePath id
      if faults.removeAllFails cp then
        (.removeCache cp :: rr.1, id :: rr.2.1, .removeCacheDir cp :: rr.2.2)
      else
        (rr.1, id :: rr.2.1, .removeCacheDir cp :: rr.2.2)

/-- Result of the reconciler: the store afterwards, the returned error
list, and the ghost event trace. -/
structure RecOut where
  db : DB
  errs : List ScanError
  trace : List RecEvent
deriving DecidableEq, Repr

/-- The identifiers the reconciler's stale-row query returns: the
owner's rows whose path is not among the scanned paths, in table
order. -/
def staleIdsFor (db : DB) (scanned : List Album) (user : User) : List Nat :=
  (db.albums.filter
    (fun a => a.ownerID == user.userID &&
      !((scanned.map (fun x => x.path)).contains a.path))).map (fun a => a.albumID)

/-- The identifiers the reconciler collects for the bulk delete: the
stale identifiers whose row scan succeeded. -/
def delIdsFor (faults : RecFaults) (db : DB) (scanned : List Album) (user : User) :
    List Nat :=
  (staleIdsFor db scanned user).filter (fun i => !(faults.scanRowFails i))

/-- Model of `deleteOldUserAlbums` (lines 160-210): no-op on an empty scanned
list; otherwise select the owner's rows whose path is not among the
scanned paths, walk them collecting identifiers and removing cache
directories, and finally bulk-delete the collected rows — a failing bulk
delete records an error and leaves the rows in place. -/
def deleteOldUserAlbums (faults : RecFaults) (db : DB)
    (scannedAlbums : List Album) (user : User) : RecOut :=
  if scannedAlbums.isEmpty then ⟨db, [], []⟩
  else if faults.queryFails then ⟨db, [.queryAlbums], []⟩
  else
    let rr := reconcileRows faults (staleIdsFor db scannedAlbums user)
    let delIds := rr.2.1
    if delIds.isEmpty then ⟨db, rr.1, rr.2.2⟩
    else if faults.deleteFails then
      ⟨db, rr.1 ++ [.deleteAlbums], rr.2.2 ++ [.deleteRows delIds]⟩
    else
      ⟨⟨db.albums.filter (fun a => !(delIds.contains a.albumID)), db.nextID⟩,
        rr.1, rr.2.2 ++ [.deleteRows delIds]⟩

/-- Model of `PhotoCache` (lines 283-290): the cache root from the `PHOTO_CACHE`
environment variable, defaulting to `./photo_cache` when unset (Go's
`os.Getenv` yields the empty string then). -/
def PhotoCache (env : String → String) : String :=
  let photoCache := env "PHOTO_CACHE"
  if photoCache == "" then "./photo_cache" else photoCache

/-- A scan queue item (`scanInfo`, lines 31-34): a directory path and the
identifier of the committed album it was enqueued under. -/
structure ScanInfo where
  path : String
  parentId : Option Nat
deriving DecidableEq, Repr

/-- Fault oracle for one directory's storage transaction, keyed by the
directory path: `db.Begin`, the `INSERT IGNORE` exec, the
`QueryRow`/`NewAlbumFromRow` re-read (a decode failure), and
`tx.Commit`. -/
structure ScanFaults where
  beginFails : String → Bool
  execFails : String → Bool
  selectFails : String → Bool
  commitFails : String → Bool

/-- Output of processing one dequeued directory: the store and cache
afterwards, the errors recorded, the albums appended to `userAlbums`,
and the items pushed onto the scan queue, each in order. -/
structure ProcOut where
  db : DB
  cache : Cache
  errs : List ScanError
  albums : List Album
  enq : List ScanInfo
deriving DecidableEq

/-- The sub-album loop (lines 93-107): walk the listing in order; any
entry whose base name starts with a dot is skipped; a directory entry is
enqueued, tagged with the committed album's identifier, exactly when
`directoryContainsPhotos` answers positively (threading the cache
through those calls, in listing order). -/
def enqueueChildren (fs : FS) (cpFuel : Nat) (albumPath : String) (albumId : Nat) :
    List FSEntry → Cache → List ScanInfo × Cache
  | [], c => ([], c)
  | e :: rest, c =>
    let subalbumPath := pathJoin albumPath e.name
    if startsWithDot (pathBase subalbumPath) then
      enqueueChildren fs cpFuel albumPath albumId rest c
    else if e.isDir then
      let r := directoryContainsPhotos fs cpFuel subalbumPath c
      let lc := enqueueChildren fs cpFuel albumPath albumId rest r.cache
      (if r.result then ⟨subalbumPath, some albumId⟩ :: lc.1 else lc.1, lc.2)
    else
      enqueueChildren fs cpFuel albumPath albumId rest c

/-- One iteration of the scan loop (lines 50-107): read the directory;
open a transaction; `INSERT IGNORE` the album row; re-read the row by
path to learn its identifier; append the album to the result list;
commit; only then enqueue qualifying children.  Every failure records
one error, leaves the store unchanged (the transaction is discarded) and
enqueues nothing; a commit failure strikes after the album was already
appended to the result list. -/
def processDir (fs : FS) (faults : ScanFaults) (user : User) (cpFuel : Nat)
    (db : DB) (cache : Cache) (info : ScanInfo) : ProcOut :=
  match fs.readDir info.path with
  | none => ⟨db, cache, [.readDir info.path], [], []⟩
  | some dirContent =>
    if faults.beginFails info.path then ⟨db, cache, [.beginTx info.path], [], []⟩
    else if faults.execFails info.path then ⟨db, cache, [.insertAlbum info.path], [], []⟩
    else
      let albumTitle := pathBase info.path
      let txDb := db.insertIgnoreAlbum albumTitle info.parentId user.userID info.path
      if faults.selectFails info.path then ⟨db, cache, [.getAlbum info.path], [], []⟩
      else
        match txDb.selectAlbumByPath info.path with
        | none => ⟨db, cache, [.getAlbum info.path], [], []⟩
        | some album =>
          if faults.commitFails info.path then
            ⟨db, cache, [.commitTx info.path], [album], []⟩
          else
            let ec := enqueueChildren fs cpFuel info.path album.albumID dirContent cache
            ⟨txDb, ec.2, [], [album], ec.1⟩

/-- Output of the scan queue loop: store, cache, discovered albums and
errors, plus whether the model ran out of fuel before the queue
emptied. -/
structure LoopOut where
  db : DB
  cache : Cache
  albums : List Album
  errs : List ScanError
  fuelOut : Bool
deriving DecidableEq

/-- The scan queue loop of `findAlbumsForUser` (lines 46-108): pop the
front item, process it, push its children, and continue with the
remaining queue whatever the outcome of the popped item was. -/
def scanLoop (fs : FS) (faults : ScanFaults) (user : User) (cpFuel : Nat) :
    Nat → DB → Cache → List ScanInfo → List Album → List ScanError → LoopOut
  | _, db, c, [], albums, errs => ⟨db, c, albums, errs, false⟩
  | 0, db, c, _ :: _, albums, errs => ⟨db, c, albums, errs, true⟩
  | fuel + 1, db, c, info :: rest, albums, errs =>
    let o := processDir fs faults user cpFuel db c info
    scanLoop fs faults user cpFuel fuel o.db o.cache (rest ++ o.enq)
      (albums ++ o.albums) (errs ++ o.errs)

/-- Full outcome of `findAlbumsForUser`: the returned album and error
lists, plus the final store, cache, reconciliation trace and the
fuel-exhaustion flag of the model. -/
structure ScanOutcome where
  albums : List Album
  errs : List ScanError
  db : DB
  cache : Cache
  trace : List RecEvent
  fuelOut : Bool
deriving DecidableEq

/-- Model of `findAlbumsForUser` (lines 20-114): check the root with `os.Stat`
(failing fast, touching nothing), run the breadth-first scan from the
root with no parent, then hand the discovered albums to
`deleteOldUserAlbums` and append its errors. -/
def findAlbumsForUser (fs : FS) (sfaults : ScanFaults) (rfaults : RecFaults)
    (user : User) (cpFuel loopFuel : Nat) (db : DB) (cache : Cache) : ScanOutcome :=
  match fs.stat user.rootPath with
  | .notExist => ⟨[], [.rootNotExist user.rootPath], db, cache, [], false⟩
  | .otherError => ⟨[], [.rootUnreadable user.rootPath], db, cache, [], false⟩
  | .ok =>
    let lo := scanLoop fs sfaults user cpFuel loopFuel db cache
      [⟨user.rootPath, none⟩] [] []
    let ro := deleteOldUserAlbums rfaults lo.db lo.albums user
    ⟨lo.albums, lo.errs ++ ro.errs, ro.db, lo.cache, ro.trace, lo.fuelOut⟩

/-- The fault-free storage oracle for the scan transactions. -/
def noScanFaults : ScanFaults :=
  ⟨fun _ => false, fun _ => false, fun _ => false, fun _ => false⟩

/-- The fault-free oracle for the reconciler. -/
def noRecFaults : RecFaults := ⟨false, fun _ => false, fun _ => false, false⟩

/-- A filesystem on which every directory read fails. -/
def fsU : FS := ⟨fun _ => .ok, fun _ => none, fun _ => false⟩

/-- A filesystem of empty readable directories with no images. -/
def fsW : FS := ⟨fun _ => .ok, fun _ => some [], fun _ => false⟩

/-- A root with an unreadable first subdirectory and an image-bearing
second subdirectory. -/
def fsSibling : FS :=
  ⟨fun _ => .ok,
   fun p =>
     if p == "/r" then some [⟨"bad", true⟩, ⟨"good", true⟩]
     else if p == "/r/bad" then none
     else if p == "/r/good" then some [⟨"img.jpg", false⟩]
     else some [],
   fun p => p == "/r/good/img.jpg"⟩

/-- A root whose only subdirectory is hidden and contains an image. -/
def fsHidden : FS :=
  ⟨fun _ => .ok,
   fun p =>
     if p == "/p" then some [⟨".hid", true⟩]
     else if p == "/p/.hid" then some [⟨"img.jpg", false⟩]
     else some [],
   fun p => p == "/p/.hid/img.jpg"⟩

/-- A root with one image-bearing subdirectory. -/
def fsOwners : FS :=
  ⟨fun _ => .ok,
   fun p =>
     if p == "/r" then some [⟨"sub", true⟩]
     else if p == "/r/sub" then some [⟨"img.jpg", false⟩]
     else some [],
   fun p => p == "/r/sub/img.jpg"⟩

/-- A storage oracle whose only fault is that the commit for directory
`/r` fails. -/
def faultsCommit : ScanFaults :=
  ⟨fun _ => false, fun _ => false, fun _ => false, fun p => p == "/r"⟩

/-- An environment with the cache root configured away from the
default. -/
def envCustom : String → String :=
  fun k => if k == "PHOTO_CACHE" then "/custom/cache" else ""

/-- The empty store. -/
def db0 : DB := ⟨[], 1⟩

/-- The scanning user: owner 1 with root `/r`. -/
def user1 : User := ⟨1, "/r", "u1"⟩

/-- A store already holding owner 2's row at path `/r`. -/
def dbOwners : DB := ⟨[⟨7, "r", none, 2, "/r"⟩], 8⟩

/-- A store holding owner 1's row at path `/b` only. -/
def dbRec : DB := ⟨[⟨2, "b", none, 1, "/b"⟩], 3⟩

/-- A scanned-album list whose single path `/a` misses the store. -/
def scannedRec : List Album := [⟨5, "a", none, 1, "/a"⟩]

/-- A store holding owner 1's rows at paths `/a`, `/b`, `/c`. -/
def dbABC : DB :=
  ⟨[⟨1, "a", none, 1, "/a"⟩, ⟨2, "b", none, 1, "/b"⟩, ⟨3, "c", none, 1, "/c"⟩], 4⟩

/-- A scan that rediscovered only `/a` and `/c`. -/
def scannedAC : List Album := [⟨1, "a", none, 1, "/a"⟩, ⟨3, "c", none, 1, "/c"⟩]

theorem albumContainsPhotos_insertAlbumPath (c : Cache) (p q : String) (b : Bool) :
    (c.insertAlbumPath p b).albumContainsPhotos q
      = if p = q then some b else c.albumContainsPhotos q := by
  by_cases h : p = q
  · subst h
    simp [Cache.insertAlbumPath, Cache.albumContainsPhotos, List.find?]
  · have hb : (p == q) = false := by simp [h]
    simp [Cache.insertAlbumPath, Cache.albumContainsPhotos, List.find?, hb, h]

theorem albumContainsPhotos_foldl_false (l : List String) (c : Cache) (q : String) :
    ((l.foldl (fun c p => c.insertAlbumPath p false) c).albumContainsPhotos q)
      = if q ∈ l then some false else c.albumContainsPhotos q := by
  induction l generalizing c with
  | nil => simp
  | cons p rest ih =>
    simp only [List.foldl_cons, ih, albumContainsPhotos_insertAlbumPath]
    by_cases hq : q ∈ rest
    · simp [hq]
    · by_cases hp : p = q
      · simp [hq, hp]
      · have hp' : ¬q = p := fun hh => hp hh.symm
        simp [hq, hp, hp']

theorem cpLoop_exit_ne_cacheHit (fs : FS) (root : String) :
    ∀ fuel q s c, (cpLoop fs root fuel q s c).exit ≠ ExitKind.cacheHit := by
  intro fuel
  induction fuel with
  | zero =>
    intro q s c
    cases q <;> simp [cpLoop]
  | succ n ih =>
    intro q s c
    cases q with
    | nil => simp [cpLoop]
    | cons d rest =>
      rcases hr : fs.readDir d with _ | dc
      · simp [cpLoop, hr]
      · rcases hf : findImageOrSubdirs fs d dc with _ | subs
        · simp [cpLoop, hr, hf]
        · simp only [cpLoop, hr, hf]
          exact ih _ _ _

theorem cpLoop_foundImage_spec (fs : FS) (root : String) :
    ∀ fuel q s c, (cpLoop fs root fuel q s c).exit = ExitKind.foundImage →
      (cpLoop fs root fuel q s c).result = true ∧
      (cpLoop fs root fuel q s c).cache.albumContainsPhotos root = some true := by
  intro fuel
  induction fuel with
  | zero =>
    intro q s c h
    cases q <;> simp [cpLoop] at h
  | succ n ih =>
    intro q s c h
    cases q with
    | nil => simp [cpLoop] at h
    | cons d rest =>
      rcases hr : fs.readDir d with _ | dc
      · simp [cpLoop, hr] at h
      · rcases hf : findImageOrSubdirs fs d dc with _ | subs
        · simp only [cpLoop, hr, hf]
          simp [Cache.insertAlbumPaths, albumContainsPhotos_insertAlbumPath]
        · simp only [cpLoop, hr, hf] at h ⊢
          exact ih _ _ _ h

theorem cpLoop_readError_spec (fs : FS) (root : String) :
    ∀ fuel q s c, (cpLoop fs root fuel q s c).exit = ExitKind.readError →
      (cpLoop fs root fuel q s c).result = false ∧
      (cpLoop fs root fuel q s c).cache = c := by
  intro fuel
  induction fuel with
  | zero =>
    intro q s c h
    cases q <;> simp [cpLoop] at h
  | succ n ih =>
    intro q s c h
    cases q with
    | nil => simp [cpLoop] at h
    | cons d rest =>
      rcases hr : fs.readDir d with _ | dc
      · simp [cpLoop, hr]
      · rcases hf : findImageOrSubdirs fs d dc with _ | subs
        · simp [cpLoop, hr, hf] at h
        · simp only [cpLoop, hr, hf] at h ⊢
          exact ih _ _ _ h

theorem cpLoop_exhausted_spec (fs : FS) (root : String) :
    ∀ fuel q s c, (cpLoop fs root fuel q s c).exit = ExitKind.exhausted →
      (cpLoop fs root fuel q s c).result = false
      ∧ (cpLoop fs root fuel q s c).cache
          = (cpLoop fs root fuel q s c).scanned.foldl
              (fun c p => c.insertAlbumPath p false) c
      ∧ (∀ p, p ∈ s ∨ p ∈ q → p ∈ (cpLoop fs root fuel q s c).scanned)
      ∧ (∀ p, p ∈ (cpLoop fs root fuel q s c).scanned →
          p ∈ s ∨ (fs.readDir p).isSome = true) := by
  intro fuel
  induction fuel with
  | zero =>
    intro q s c h
    cases q with
    | nil =>
      refine ⟨rfl, rfl, ?_, ?_⟩
      · intro p hp
        simpa [cpLoop] using hp
      · intro p hp
        exact Or.inl (by simpa [cpLoop] using hp)
    | cons d rest => simp [cpLoop] at h
  | succ n ih =>
    intro q s c h
    cases q with
    | nil =>
      refine ⟨rfl, rfl, ?_, ?_⟩
      · intro p hp
        simpa [cpLoop] using hp
      · intro p hp
        exact Or.inl (by simpa [cpLoop] using hp)
    | cons d rest =>
      rcases hr : fs.readDir d with _ | dc
      · simp [cpLoop, hr] at h
      · rcases hf : findImageOrSubdirs fs d dc with _ | subs
        · simp [cpLoop, hr, hf] at h
        · simp only [cpLoop, hr, hf] at h ⊢
          obtain ⟨h1, h2, h3, h4⟩ := ih (rest ++ subs) (s ++ [d]) c h
          refine ⟨h1, h2, ?_, ?_⟩
          · intro p hp
            refine h3 p ?_
            rcases hp with hp | hp
            · exact Or.inl (List.mem_append_left _ hp)
            · rcases List.mem_cons.mp hp with hp | hp
              · exact Or.inl (by simp [hp])
              · exact Or.inr (List.mem_append_left _ hp)
          · intro p hp
            rcases h4 p hp with hp' | hp'
            · rcases List.mem_append.mp hp' with hp'' | hp''
              · exact Or.inl hp''
              · right
                simp only [List.mem_singleton] at hp''
                subst hp''
                simp [hr]
            · exact Or.inr hp'

theorem directoryContainsPhotos_of_lookup_some (fs : FS) (fuel : Nat) (root : String)
    (c : Cache) (b : Bool) (h : c.albumContainsPhotos root = some b) :
    directoryContainsPhotos fs fuel root c = ⟨b, c, [], ExitKind.cacheHit⟩ := by
  simp [directoryContainsPhotos, h]

theorem directoryContainsPhotos_of_lookup_none (fs : FS) (fuel : Nat) (root : String)
    (c : Cache) (h : c.albumContainsPhotos root = none) :
    directoryContainsPhotos fs fuel root c = cpLoop fs root fuel [root] [] c := by
  simp [directoryContainsPhotos, h]

/-- C5 (amended): after `containsPhotos(D)` has returned without a
directory-read error (and, in the model, without running out of fuel), a
second call with any fuel returns the identical boolean, leaves the
cache unchanged, and reads no directory at all — the cached result is
returned immediately from the cache lookup. -/
theorem claim_C5_memoized_second_call (fs : FS) (fuel fuel' : Nat) (D : String) (c : Cache)
    (h1 : (directoryContainsPhotos fs fuel D c).exit ≠ ExitKind.readError)
    (h2 : (directoryContainsPhotos fs fuel D c).exit ≠ ExitKind.outOfFuel) :
    directoryContainsPhotos fs fuel' D (directoryContainsPhotos fs fuel D c).cache
      = ⟨(directoryContainsPhotos fs fuel D c).result,
         (directoryContainsPhotos fs fuel D c).cache, [], ExitKind.cacheHit⟩ := by
  rcases hc : c.albumContainsPhotos D with _ | b
  · rw [directoryContainsPhotos_of_lookup_none fs fuel D c hc] at h1 h2 ⊢
    rcases hE : (cpLoop fs D fuel [D] [] c).exit
    · exact absurd hE (cpLoop_exit_ne_cacheHit fs D fuel [D] [] c)
    · obtain ⟨hres, hcache⟩ := cpLoop_foundImage_spec fs D fuel [D] [] c hE
      rw [directoryContainsPhotos_of_lookup_some fs fuel' D _ true hcache, hres]
    · obtain ⟨hres, hcache, hmem, -⟩ := cpLoop_exhausted_spec fs D fuel [D] [] c hE
      have hD : D ∈ (cpLoop fs D fuel [D] [] c).scanned := hmem D (Or.inr (by simp))
      have hlook : (cpLoop fs D fuel [D] [] c).cache.albumContainsPhotos D = some false := by
        rw [hcache, albumContainsPhotos_foldl_false]
        simp [hD]
      rw [directoryContainsPhotos_of_lookup_some fs fuel' D _ false hlook, hres]
    · exact absurd hE h1
    · exact absurd hE h2
  · rw [directoryContainsPhotos_of_lookup_some fs fuel D c b hc] at h1 h2 ⊢
    exact directoryContainsPhotos_of_lookup_some fs fuel' D c b hc

/-- C5 witness: on an empty readable directory `/w`, the first call
exhausts the walk; the second call answers from the cache with the same
value and reads nothing. -/
theorem claim_C5_memoized_second_call_witness :
    directoryContainsPhotos fsW 5 "/w" (directoryContainsPhotos fsW 1 "/w" []).cache
      = ⟨(directoryContainsPhotos fsW 1 "/w" []).result,
         (directoryContainsPhotos fsW 1 "/w" []).cache, [], ExitKind.cacheHit⟩ :=
  claim_C5_memoized_second_call fsW 1 5 "/w" [] (by decide) (by decide)

/-- C5 counterexample: on a directory `/u` whose read fails, the first
call returns a value (false) but caches nothing, and the second call
walks the filesystem again — it hands `/u` to `ReadDir` — refuting
"performs no filesystem access". -/
theorem claim_C5_counterexample :
    (directoryContainsPhotos fsU 1 "/u" []).result = false
    ∧ (directoryContainsPhotos fsU 1 "/u"
        (directoryContainsPhotos fsU 1 "/u" []).cache).scanned = ["/u"] := by
  decide

/-- C7 (amended): `containsPhotos` indeed never returns an error and
never caches a false verdict for a directory it could not enumerate —
but on an unreadable directory mid-walk it abandons the entire walk at
once: it returns false for the whole query with the cache completely
unchanged (remaining queued directories are not processed); negative
verdicts are cached only on the exhausted exit, where every recorded
directory was successfully enumerated. -/
theorem claim_C7_error_handling (fs : FS) (fuel : Nat) (D : String) (c : Cache) :
    ((directoryContainsPhotos fs fuel D c).exit = ExitKind.readError →
       (directoryContainsPhotos fs fuel D c).result = false
       ∧ (directoryContainsPhotos fs fuel D c).cache = c)
    ∧ ((directoryContainsPhotos fs fuel D c).exit = ExitKind.exhausted →
       (directoryContainsPhotos fs fuel D c).result = false
       ∧ ∀ p ∈ (directoryContainsPhotos fs fuel D c).scanned,
           (fs.readDir p).isSome = true) := by
  rcases hc : c.albumContainsPhotos D with _ | b
  · rw [directoryContainsPhotos_of_lookup_none fs fuel D c hc]
    constructor
    · intro hE
      exact cpLoop_readError_spec fs D fuel [D] [] c hE
    · intro hE
      obtain ⟨hres, -, -, hread⟩ := cpLoop_exhausted_spec fs D fuel [D] [] c hE
      refine ⟨hres, ?_⟩
      intro p hp
      rcases hread p hp with hp' | hp'
      · simp at hp'
      · exact hp'
  · rw [directoryContainsPhotos_of_lookup_some fs fuel D c b hc]
    constructor <;> intro hE <;> simp at hE

/-- C7 witness: the read-error conjunct exercised on the unreadable
directory `/u`, and the exhausted conjunct on the empty readable
directory `/w`. -/
theorem claim_C7_error_handling_witness :
    ((directoryContainsPhotos fsU 1 "/u" []).result = false
      ∧ (directoryContainsPhotos fsU 1 "/u" []).cache = [])
    ∧ ((directoryContainsPhotos fsW 1 "/w" []).result = false
      ∧ ∀ p ∈ (directoryContainsPhotos fsW 1 "/w" []).scanned,
          (fsW.readDir p).isSome = true) :=
  ⟨(claim_C7_error_handling fsU 1 "/u" []).1 (by decide),
   (claim_C7_error_handling fsW 1 "/w" []).2 (by decide)⟩

/-- C7 counterexample: under root `/r`, subdirectory `/r/bad` is
unreadable and sibling `/r/good` contains an image.  The walk returns
false for the whole query and never reads the still-queued `/r/good`
(which on its own classifies positively), refuting "returns false for
that branch only (other queued directories are still processed)". -/
theorem claim_C7_counterexample :
    (directoryContainsPhotos fsSibling 5 "/r" []).result = false
    ∧ (directoryContainsPhotos fsSibling 5 "/r" []).scanned = ["/r", "/r/bad"]
    ∧ "/r/good" ∉ (directoryContainsPhotos fsSibling 5 "/r" []).scanned
    ∧ (directoryContainsPhotos fsSibling 2 "/r/good" []).result = true := by
  decide

theorem enqueueChildren_not_hidden (fs : FS) (cpFuel : Nat) (albumPath : String)
    (albumId : Nat) :
    ∀ entries c x, x ∈ (enqueueChildren fs cpFuel albumPath albumId entries c).1 →
      startsWithDot (pathBase x.path) = false := by
  intro entries
  induction entries with
  | nil =>
    intro c x hx
    simp [enqueueChildren] at hx
  | cons e rest ih =>
    intro c x hx
    by_cases hh : startsWithDot (pathBase (pathJoin albumPath e.name)) = true
    · simp only [enqueueChildren, hh, if_true] at hx
      exact ih c x hx
    · have hh' : startsWithDot (pathBase (pathJoin albumPath e.name)) = false :=
        Bool.not_eq_true _ ▸ Bool.of_not_eq_true hh
      by_cases hd : e.isDir = true
      · simp only [enqueueChildren, hh', hd, Bool.false_eq_true, if_false, if_true] at hx
        by_cases hres :
            (directoryContainsPhotos fs cpFuel (pathJoin albumPath e.name) c).result = true
        · simp only [hres, if_true, List.mem_cons] at hx
          rcases hx with rfl | hx
          · exact hh'
          · exact ih _ x hx
        · simp only [Bool.not_eq_true] at hres
          simp only [hres, Bool.false_eq_true, if_false] at hx
          exact ih _ x hx
      · simp only [Bool.not_eq_true] at hd
        simp only [enqueueChildren, hh', hd, Bool.false_eq_true, if_false] at hx
        exact ih c x hx

theorem enqueueChildren_parentId (fs : FS) (cpFuel : Nat) (albumPath : String)
    (albumId : Nat) :
    ∀ entries c x, x ∈ (enqueueChildren fs cpFuel albumPath albumId entries c).1 →
      x.parentId = some albumId := by
  intro entries
  induction entries with
  | nil =>
    intro c x hx
    simp [enqueueChildren] at hx
  | cons e rest ih =>
    intro c x hx
    by_cases hh : startsWithDot (pathBase (pathJoin albumPath e.name)) = true
    · simp only [enqueueChildren, hh, if_true] at hx
      exact ih c x hx
    · have hh' : startsWithDot (pathBase (pathJoin albumPath e.name)) = false :=
        Bool.not_eq_true _ ▸ Bool.of_not_eq_true hh
      by_cases hd : e.isDir = true
      · simp only [enqueueChildren, hh', hd, Bool.false_eq_true, if_false, if_true] at hx
        by_cases hres :
            (directoryContainsPhotos fs cpFuel (pathJoin albumPath e.name) c).result = true
        · simp only [hres, if_true, List.mem_cons] at hx
          rcases hx with rfl | hx
          · rfl
          · exact ih _ x hx
        · simp only [Bool.not_eq_true] at hres
          simp only [hres, Bool.false_eq_true, if_false] at hx
          exact ih _ x hx
      · simp only [Bool.not_eq_true] at hd
        simp only [enqueueChildren, hh', hd, Bool.false_eq_true, if_false] at hx
        exact ih c x hx

/-- C4 (amended): a subdirectory whose name begins with a dot is indeed
never enqueued by the Album Tree Scanner (so, the root aside, never
inserted as an album); but the Subtree Classifier applies no hidden-name
filter, so a hidden subdirectory containing an image does make its
parent's `containsPhotos` result positive (witnessed on the root `/p`
whose only subdirectory `.hid` holds the only image). -/
theorem claim_C4_hidden_exclusion :
    (∀ fs cpFuel albumPath albumId entries c x,
        x ∈ (enqueueChildren fs cpFuel albumPath albumId entries c).1 →
        startsWithDot (pathBase x.path) = false)
    ∧ (directoryContainsPhotos fsHidden 3 "/p" []).result = true
    ∧ startsWithDot (pathBase "/p/.hid") = true := by
  refine ⟨?_, by decide, by decide⟩
  intro fs cpFuel albumPath albumId entries c x hx
  exact enqueueChildren_not_hidden fs cpFuel albumPath albumId entries c x hx

/-- C4 witness: the non-hidden subdirectory `/r/sub` is enqueued in the
two-owner scenario, and the theorem yields that its name passes the
hidden-name test. -/
theorem claim_C4_hidden_exclusion_witness :
    startsWithDot (pathBase "/r/sub") = false :=
  claim_C4_hidden_exclusion.1 fsOwners 2 "/r" 7 [⟨"sub", true⟩] []
    ⟨"/r/sub", some 7⟩ (by decide)

/-- C4 counterexample: the hidden subdirectory `/p/.hid` contains the
only image under `/p`, yet `containsPhotos("/p")` is true — the
classifier walks into hidden directories, refuting "it does not make its
parent's containsPhotos result positive". -/
theorem claim_C4_counterexample :
    startsWithDot (pathBase "/p/.hid") = true
    ∧ fsHidden.readDir "/p" = some [⟨".hid", true⟩]
    ∧ fsHidden.isPathImage "/p/.hid/img.jpg" = true
    ∧ (directoryContainsPhotos fsHidden 3 "/p" []).result = true := by
  decide

/-- C2: reconciliation with an empty scanned-album list is a no-op for
every store, user and fault oracle — the store is unchanged (zero row
deletions), the event trace is empty (zero cache-directory removals) and
no error is returned. -/
theorem claim_C2_empty_scan_noop (faults : RecFaults) (db : DB) (user : User) :
    deleteOldUserAlbums faults db [] user = ⟨db, [], []⟩ := rfl


theorem reconcileRows_spec (faults : RecFaults) :
    ∀ ids, (reconcileRows faults ids).2.1
        = ids.filter (fun i => !(faults.scanRowFails i))
      ∧ (reconcileRows faults ids).2.2
        = (ids.filter (fun i => !(faults.scanRowFails i))).map
            (fun i => RecEvent.removeCacheDir (reconcileCachePath i)) := by
  intro ids
  induction ids with
  | nil => exact ⟨rfl, rfl⟩
  | cons id rest ih =>
    by_cases hs : faults.scanRowFails id
    · simp [reconcileRows, hs, List.filter_cons, ih.1, ih.2]
    · have hs' : faults.scanRowFails id = false := Bool.of_not_eq_true hs
      by_cases hr : faults.removeAllFails (reconcileCachePath id)
      · simp [reconcileRows, hs', hr, List.filter_cons, ih.1, ih.2]
      · have hr' : faults.removeAllFails (reconcileCachePath id) = false :=
          Bool.of_not_eq_true hr
        simp [reconcileRows, hs', hr', List.filter_cons, ih.1, ih.2]

theorem deleteOldUserAlbums_spec (faults : RecFaults) (db : DB) (scanned : List Album)
    (user : User) (h1 : scanned.isEmpty = false) (h2 : faults.queryFails = false) :
    (deleteOldUserAlbums faults db scanned user).trace
      = (delIdsFor faults db scanned user).map
          (fun i => RecEvent.removeCacheDir (reconcileCachePath i))
        ++ (if (delIdsFor faults db scanned user).isEmpty then []
            else [RecEvent.deleteRows (delIdsFor faults db scanned user)])
    ∧ (faults.deleteFails = false →
       (deleteOldUserAlbums faults db scanned user).db.albums
         = db.albums.filter
             (fun a => !((delIdsFor faults db scanned user).contains a.albumID))) := by
  have hdel : (reconcileRows faults (staleIdsFor db scanned user)).2.1
      = delIdsFor faults db scanned user :=
    (reconcileRows_spec faults (staleIdsFor db scanned user)).1
  have htr : (reconcileRows faults (staleIdsFor db scanned user)).2.2
      = (delIdsFor faults db scanned user).map
          (fun i => RecEvent.removeCacheDir (reconcileCachePath i)) :=
    (reconcileRows_spec faults (staleIdsFor db scanned user)).2
  simp only [deleteOldUserAlbums, h1, h2, Bool.false_eq_true, if_false, hdel, htr]
  by_cases hE : (delIdsFor faults db scanned user).isEmpty
  · have hnil : delIdsFor faults db scanned user = [] := by
      cases hl : delIdsFor faults db scanned user with
      | nil => rfl
      | cons x xs => rw [hl] at hE; simp at hE
    simp [hE, hnil]
  · have hE' : (delIdsFor faults db scanned user).isEmpty = false :=
      Bool.of_not_eq_true hE
    simp only [hE', Bool.false_eq_true, if_false]
    by_cases hD : faults.deleteFails
    · simp only [hD, if_true]
      exact ⟨by trivial, fun hc => absurd hc (by simp)⟩
    · have hD' : faults.deleteFails = false := Bool.of_not_eq_true hD
      simp only [hD', Bool.false_eq_true, if_false]
      exact ⟨by trivial, fun _ => by trivial⟩

/-- C1 (amended): for every album identifier selected for deletion whose
row scan succeeds, the cache-directory removal is attempted BEFORE the
rows are removed from storage — the reconciler's trace is all removal
attempts followed by the single bulk delete, which is the final event
when present; and a cache-removal failure neither drops the identifier
from the bulk delete nor prevents the rows' deletion (the collected
identifiers and the resulting store do not depend on the removal fault
oracle). -/
theorem claim_C1_removal_precedes_delete (faults : RecFaults) (db : DB)
    (scanned : List Album) (user : User)
    (h1 : scanned.isEmpty = false) (h2 : faults.queryFails = false) :
    (deleteOldUserAlbums faults db scanned user).trace
      = (delIdsFor faults db scanned user).map
          (fun i => RecEvent.removeCacheDir (reconcileCachePath i))
        ++ (if (delIdsFor faults db scanned user).isEmpty then []
            else [RecEvent.deleteRows (delIdsFor faults db scanned user)])
    ∧ (faults.deleteFails = false →
       (deleteOldUserAlbums faults db scanned user).db.albums
         = db.albums.filter
             (fun a => !((delIdsFor faults db scanned user).contains a.albumID))) :=
  deleteOldUserAlbums_spec faults db scanned user h1 h2

/-- C1 witness: the one-stale-row scenario, with no faults. -/
theorem claim_C1_removal_precedes_delete_witness :
    (deleteOldUserAlbums noRecFaults dbRec scannedRec user1).trace
      = (delIdsFor noRecFaults dbRec scannedRec user1).map
          (fun i => RecEvent.removeCacheDir (reconcileCachePath i))
        ++ (if (delIdsFor noRecFaults dbRec scannedRec user1).isEmpty then []
            else [RecEvent.deleteRows (delIdsFor noRecFaults dbRec scannedRec user1)])
    ∧ (noRecFaults.deleteFails = false →
       (deleteOldUserAlbums noRecFaults dbRec scannedRec user1).db.albums
         = dbRec.albums.filter
             (fun a => !((delIdsFor noRecFaults dbRec scannedRec user1).contains
                a.albumID))) :=
  claim_C1_removal_precedes_delete noRecFaults dbRec scannedRec user1 (by decide) rfl

/-- C1 counterexample: with one stale row (identifier 2), the trace is
the cache-directory removal FOLLOWED by the row deletion — the removal
happens strictly before the row is removed from storage, refuting
"removed only after ... never before". -/
theorem claim_C1_counterexample :
    (deleteOldUserAlbums noRecFaults dbRec scannedRec user1).trace
      = [RecEvent.removeCacheDir "./photo_cache/2", RecEvent.deleteRows [2]] := by
  decide

theorem pairwise_albumID_inj : ∀ (l : List Album),
    l.Pairwise (fun x y => x.albumID ≠ y.albumID) →
    ∀ a ∈ l, ∀ b ∈ l, a.albumID = b.albumID → a = b := by
  intro l
  induction l with
  | nil =>
    intro _ a ha
    simp at ha
  | cons x xs ih =>
    intro h a ha b hb heq
    rcases List.pairwise_cons.mp h with ⟨hx, hxs⟩
    rcases List.mem_cons.mp ha with rfl | ha'
    · rcases List.mem_cons.mp hb with rfl | hb'
      · rfl
      · exact absurd heq (hx b hb')
    · rcases List.mem_cons.mp hb with rfl | hb'
      · exact absurd heq.symm (hx a ha')
      · exact ih hxs a ha' b hb' heq

theorem filter_contains_stale (l : List Album) (P : Album → Bool)
    (hinj : ∀ a ∈ l, ∀ b ∈ l, a.albumID = b.albumID → a = b) :
    l.filter (fun a => !(((l.filter P).map (fun x => x.albumID)).contains a.albumID))
      = l.filter (fun a => !(P a)) := by
  apply List.filter_congr
  intro a ha
  congr 1
  by_cases hP : P a = true
  · have hmem : a.albumID ∈ (l.filter P).map (fun x => x.albumID) :=
      List.mem_map_of_mem _ (List.mem_filter.mpr ⟨ha, hP⟩)
    simp only [hP]
    exact List.elem_iff.mpr hmem
  · have hP' : P a = false := Bool.of_not_eq_true hP
    simp only [hP']
    cases hcon : ((l.filter P).map (fun x => x.albumID)).contains a.albumID
    · rfl
    · exfalso
      have hmem : a.albumID ∈ (l.filter P).map (fun x => x.albumID) :=
        List.elem_iff.mp hcon
      rcases List.mem_map.mp hmem with ⟨b, hb, hid⟩
      rcases List.mem_filter.mp hb with ⟨hbl, hbP⟩
      have hba : b = a := hinj b hbl a ha hid
      rw [hba] at hbP
      exact absurd hbP (by simp [hP'])

/-- C6 (amended): for every owner and every NON-EMPTY scan result list
(in fault-free operation, with distinct row identifiers), reconciliation
deletes exactly those of the owner's album rows whose path is absent
from the scanned path set, leaving the others untouched, and attempts a
cache-directory removal for each deleted row.  (For the empty scanned
list the code deliberately deletes nothing — the C2 safety valve —
although every stored path is then absent from the scanned set.) -/
theorem claim_C6_set_difference (faults : RecFaults) (db : DB) (scanned : List Album)
    (user : User)
    (h1 : scanned.isEmpty = false)
    (h2 : faults.queryFails = false)
    (h3 : ∀ i, faults.scanRowFails i = false)
    (h4 : faults.deleteFails = false)
    (h5 : db.albums.Pairwise (fun x y => x.albumID ≠ y.albumID)) :
    (deleteOldUserAlbums faults db scanned user).db.albums
      = db.albums.filter
          (fun a => !(a.ownerID == user.userID &&
            !((scanned.map (fun x => x.path)).contains a.path)))
    ∧ ∀ a ∈ db.albums,
        (a.ownerID == user.userID &&
          !((scanned.map (fun x => x.path)).contains a.path)) = true →
        RecEvent.removeCacheDir (reconcileCachePath a.albumID)
          ∈ (deleteOldUserAlbums faults db scanned user).trace := by
  have hdelids : delIdsFor faults db scanned user = staleIdsFor db scanned user := by
    unfold delIdsFor
    apply List.filter_eq_self.mpr
    intro i _
    simp [h3 i]
  obtain ⟨htr, hdb⟩ := deleteOldUserAlbums_spec faults db scanned user h1 h2
  constructor
  · rw [hdb h4, hdelids]
    unfold staleIdsFor
    exact filter_contains_stale db.albums _ (pairwise_albumID_inj db.albums h5)
  · intro a ha hstale
    rw [htr, hdelids]
    apply List.mem_append_left
    unfold staleIdsFor
    exact List.mem_map_of_mem _
      (List.mem_map_of_mem _ (List.mem_filter.mpr ⟨ha, hstale⟩))

/-- C6 witness: storage holds `/a`, `/b`, `/c` for owner 1, the scan
rediscovered `/a` and `/c`; exactly the `/b` row goes, with its cache
removal attempted. -/
theorem claim_C6_set_difference_witness :
    (deleteOldUserAlbums noRecFaults dbABC scannedAC user1).db.albums
      = dbABC.albums.filter
          (fun a => !(a.ownerID == user1.userID &&
            !((scannedAC.map (fun x => x.path)).contains a.path)))
    ∧ ∀ a ∈ dbABC.albums,
        (a.ownerID == user1.userID &&
          !((scannedAC.map (fun x => x.path)).contains a.path)) = true →
        RecEvent.removeCacheDir (reconcileCachePath a.albumID)
          ∈ (deleteOldUserAlbums noRecFaults dbABC scannedAC user1).trace :=
  claim_C6_set_difference noRecFaults dbABC scannedAC user1 (by decide) rfl
    (fun _ => rfl) rfl (by decide)

/-- C6 counterexample: with an empty scan result set, owner 1's row at
`/b` has a path absent from the scanned path set, yet reconciliation
deletes nothing (and attempts no removal) — the claim's universal
quantification over "every scan result set" fails on the empty one. -/
theorem claim_C6_counterexample :
    deleteOldUserAlbums noRecFaults dbRec [] user1 = ⟨dbRec, [], []⟩
    ∧ dbRec.albums = [⟨2, "b", none, 1, "/b"⟩]
    ∧ (([] : List Album).map (fun x => x.path)).contains "/b" = false := by
  decide

/-- C8 (code bug): the reconciler removes cache directories under the
string literal `./photo_cache` (line 193) and never consults
`PhotoCache`; with the environment setting `PHOTO_CACHE=/custom/cache`
the removed path for stale album 2 is `./photo_cache/2`, not under the
configured cache root `/custom/cache`. -/
theorem claim_C8_hardcoded_cache_root :
    (deleteOldUserAlbums noRecFaults dbRec scannedRec user1).trace
      = [RecEvent.removeCacheDir (reconcileCachePath 2), RecEvent.deleteRows [2]]
    ∧ reconcileCachePath 2 = "./photo_cache/2"
    ∧ PhotoCache envCustom = "/custom/cache"
    ∧ reconcileCachePath 2 ≠ pathJoin (PhotoCache envCustom) (toString 2) := by
  decide

/-- C3 (amended): for every directory processed by the scanner, a
failure of the directory read, the transaction begin, the insert, or the
row re-read records exactly one error, leaves the store and cache
unchanged (the transaction is discarded), appends no album, and enqueues
no children; a COMMIT failure likewise discards the transaction, records
one error and enqueues no children — but the album has already been
appended to the result list (the append precedes the commit, line 84
before line 87); and whatever the outcome, the loop continues with the
remaining queue. -/
theorem claim_C3_transaction_failure (fs : FS) (faults : ScanFaults) (user : User)
    (cpFuel : Nat) (db : DB) (cache : Cache) (info : ScanInfo) :
    (fs.readDir info.path = none →
       processDir fs faults user cpFuel db cache info
         = ⟨db, cache, [ScanError.readDir info.path], [], []⟩)
    ∧ (∀ dc, fs.readDir info.path = some dc →
       faults.beginFails info.path = true →
       processDir fs faults user cpFuel db cache info
         = ⟨db, cache, [ScanError.beginTx info.path], [], []⟩)
    ∧ (∀ dc, fs.readDir info.path = some dc →
       faults.beginFails info.path = false → faults.execFails info.path = true →
       processDir fs faults user cpFuel db cache info
         = ⟨db, cache, [ScanError.insertAlbum info.path], [], []⟩)
    ∧ (∀ dc, fs.readDir info.path = some dc →
       faults.beginFails info.path = false → faults.execFails info.path = false →
       faults.selectFails info.path = true →
       processDir fs faults user cpFuel db cache info
         = ⟨db, cache, [ScanError.getAlbum info.path], [], []⟩)
    ∧ (∀ dc, fs.readDir info.path = some dc →
       faults.beginFails info.path = false → faults.execFails info.path = false →
       faults.selectFails info.path = false →
       (db.insertIgnoreAlbum (pathBase info.path) info.parentId user.userID
          info.path).selectAlbumByPath info.path = none →
       processDir fs faults user cpFuel db cache info
         = ⟨db, cache, [ScanError.getAlbum info.path], [], []⟩)
    ∧ (∀ dc album, fs.readDir info.path = some dc →
       faults.beginFails info.path = false → faults.execFails info.path = false →
       faults.selectFails info.path = false →
       (db.insertIgnoreAlbum (pathBase info.path) info.parentId user.userID
          info.path).selectAlbumByPath info.path = some album →
       faults.commitFails info.path = true →
       processDir fs faults user cpFuel db cache info
         = ⟨db, cache, [ScanError.commitTx info.path], [album], []⟩)
    ∧ (∀ fuel rest albums errs,
       scanLoop fs faults user cpFuel (fuel + 1) db cache (info :: rest) albums errs
         = scanLoop fs faults user cpFuel fuel
             (processDir fs faults user cpFuel db cache info).db
             (processDir fs faults user cpFuel db cache info).cache
             (rest ++ (processDir fs faults user cpFuel db cache info).enq)
             (albums ++ (processDir fs faults user cpFuel db cache info).albums)
             (errs ++ (processDir fs faults user cpFuel db cache info).errs)) := by
  refine ⟨?_, ?_, ?_, ?_, ?_, ?_, ?_⟩
  · intro h
    simp [processDir, h]
  · intro dc h hb
    simp [processDir, h, hb]
  · intro dc h hb he
    simp [processDir, h, hb, he]
  · intro dc h hb he hs
    simp [processDir, h, hb, he, hs]
  · intro dc h hb he hs hsel
    simp [processDir, h, hb, he, hs, hsel]
  · intro dc album h hb he hs hsel hc
    simp [processDir, h, hb, he, hs, hsel, hc]
  · intro fuel rest albums errs
    rfl

/-- C3 witness: the read-failure conjunct on the unreadable directory
`/u`, and the commit-failure conjunct on `/r` — where the album is in
the output album list even though the commit failed. -/
theorem claim_C3_transaction_failure_witness :
    processDir fsU noScanFaults user1 1 db0 [] ⟨"/u", none⟩
      = ⟨db0, [], [ScanError.readDir "/u"], [], []⟩
    ∧ processDir fsW faultsCommit user1 1 db0 [] ⟨"/r", none⟩
      = ⟨db0, [], [ScanError.commitTx "/r"], [⟨1, "r", none, 1, "/r"⟩], []⟩ :=
  ⟨(claim_C3_transaction_failure fsU noScanFaults user1 1 db0 [] ⟨"/u", none⟩).1 rfl,
   (claim_C3_transaction_failure fsW faultsCommit user1 1 db0 []
      ⟨"/r", none⟩).2.2.2.2.2.1 [] ⟨1, "r", none, 1, "/r"⟩ rfl rfl rfl rfl
      (by decide) (by decide)⟩

/-- C3 counterexample: a full scan whose only directory `/r` suffers a
commit failure returns that very album in the result list (alongside the
recorded commit error), refuting "the album is NOT appended to the
result list" on transaction failure — the append (line 84) precedes the
commit (line 87). -/
theorem claim_C3_counterexample :
    (findAlbumsForUser fsW faultsCommit noRecFaults user1 1 3 db0 []).albums
      = [⟨1, "r", none, 1, "/r"⟩]
    ∧ (findAlbumsForUser fsW faultsCommit noRecFaults user1 1 3 db0 []).errs
      = [ScanError.commitTx "/r"]
    ∧ (findAlbumsForUser fsW faultsCommit noRecFaults user1 1 3 db0 []).db = db0 := by
  decide

theorem mem_insertIgnoreAlbum (db : DB) (t : String) (par : Option Nat) (own : Nat)
    (p : String) (a : Album) (ha : a ∈ db.albums) :
    a ∈ (db.insertIgnoreAlbum t par own p).albums := by
  unfold DB.insertIgnoreAlbum
  by_cases hc : db.albums.any (fun b => b.ownerID == own && b.path == p) = true
  · simpa [hc] using ha
  · have hc' := Bool.of_not_eq_true hc
    simp [hc', ha]

theorem processDir_enq_spec (fs : FS) (faults : ScanFaults) (user : User)
    (cpFuel : Nat) (db : DB) (cache : Cache) (info : ScanInfo) :
    ∀ x ∈ (processDir fs faults user cpFuel db cache info).enq,
      ∃ a, (processDir fs faults user cpFuel db cache info).albums = [a]
        ∧ x.parentId = some a.albumID
        ∧ a ∈ (processDir fs faults user cpFuel db cache info).db.albums := by
  intro x hx
  rcases hrd : fs.readDir info.path with _ | dc
  · simp [processDir, hrd] at hx
  · by_cases hb : faults.beginFails info.path = true
    · simp [processDir, hrd, hb] at hx
    · have hb' := Bool.of_not_eq_true hb
      by_cases he : faults.execFails info.path = true
      · simp [processDir, hrd, hb', he] at hx
      · have he' := Bool.of_not_eq_true he
        by_cases hs : faults.selectFails info.path = true
        · simp [processDir, hrd, hb', he', hs] at hx
        · have hs' := Bool.of_not_eq_true hs
          rcases hsel : (db.insertIgnoreAlbum (pathBase info.path) info.parentId
              user.userID info.path).selectAlbumByPath info.path with _ | album
          · simp [processDir, hrd, hb', he', hs', hsel] at hx
          · by_cases hc : faults.commitFails info.path = true
            · simp [processDir, hrd, hb', he', hs', hsel, hc] at hx
            · have hc' := Bool.of_not_eq_true hc
              have hx' : x ∈ (enqueueChildren fs cpFuel info.path album.albumID
                  dc cache).1 := by
                simpa [processDir, hrd, hb', he', hs', hsel, hc'] using hx
              refine ⟨album, ?_, ?_, ?_⟩
              · simp [processDir, hrd, hb', he', hs', hsel, hc']
              · exact enqueueChildren_parentId fs cpFuel info.path album.albumID
                  dc cache x hx'
              · simp only [processDir, hrd, hb', he', hs', hsel, hc']
                simpa using List.mem_of_find?_eq_some hsel

theorem processDir_db_mono (fs : FS) (faults : ScanFaults) (user : User)
    (cpFuel : Nat) (db : DB) (cache : Cache) (info : ScanInfo) (a : Album)
    (ha : a ∈ db.albums) :
    a ∈ (processDir fs faults user cpFuel db cache info).db.albums := by
  rcases hrd : fs.readDir info.path with _ | dc
  · simpa [processDir, hrd] using ha
  · by_cases hb : faults.beginFails info.path = true
    · simpa [processDir, hrd, hb] using ha
    · have hb' := Bool.of_not_eq_true hb
      by_cases he : faults.execFails info.path = true
      · simpa [processDir, hrd, hb', he] using ha
      · have he' := Bool.of_not_eq_true he
        by_cases hs : faults.selectFails info.path = true
        · simpa [processDir, hrd, hb', he', hs] using ha
        · have hs' := Bool.of_not_eq_true hs
          rcases hsel : (db.insertIgnoreAlbum (pathBase info.path) info.parentId
              user.userID info.path).selectAlbumByPath info.path with _ | album
          · simpa [processDir, hrd, hb', he', hs', hsel] using ha
          · by_cases hc : faults.commitFails info.path = true
            · simpa [processDir, hrd, hb', he', hs', hsel, hc] using ha
            · have hc' := Bool.of_not_eq_true hc
              simp only [processDir, hrd, hb', he', hs', hsel, hc']
              simpa using mem_insertIgnoreAlbum db (pathBase info.path) info.parentId
                user.userID info.path a ha

theorem scanLoop_db_mono (fs : FS) (faults : ScanFaults) (user : User) (cpFuel : Nat) :
    ∀ fuel db c q albums errs a, a ∈ db.albums →
      a ∈ (scanLoop fs faults user cpFuel fuel db c q albums errs).db.albums := by
  intro fuel
  induction fuel with
  | zero =>
    intro db c q albums errs a ha
    cases q with
    | nil => simpa [scanLoop] using ha
    | cons i rest => simpa [scanLoop] using ha
  | succ n ih =>
    intro db c q albums errs a ha
    cases q with
    | nil => simpa [scanLoop] using ha
    | cons i rest =>
      simp only [scanLoop]
      exact ih _ _ _ _ _ a
        (processDir_db_mono fs faults user cpFuel db c i a ha)

/-- C9 (amended): every child the scanner enqueues carries as parent the
identifier of the single album appended for its parent directory in the
same step — the row obtained by the path-only re-read, which is present
in storage at commit time and, since the loop only ever adds rows,
persists through the rest of the traversal.  That row need not belong to
the scanning owner: when another owner already holds a row at the same
path, the re-read (which does not filter by owner) can adopt the foreign
row, so the committed child references a different owner's identifier. -/
theorem claim_C9_parent_linkage :
    (∀ fs faults user cpFuel db cache info,
       ∀ x ∈ (processDir fs faults user cpFuel db cache info).enq,
       ∃ a, (processDir fs faults user cpFuel db cache info).albums = [a]
         ∧ x.parentId = some a.albumID
         ∧ a ∈ (processDir fs faults user cpFuel db cache info).db.albums)
    ∧ (∀ fs faults user cpFuel fuel db c q albums errs a,
       a ∈ db.albums →
       a ∈ (scanLoop fs faults user cpFuel fuel db c q albums errs).db.albums) :=
  ⟨fun fs faults user cpFuel db cache info =>
     processDir_enq_spec fs faults user cpFuel db cache info,
   fun fs faults user cpFuel fuel db c q albums errs a ha =>
     scanLoop_db_mono fs faults user cpFuel fuel db c q albums errs a ha⟩

/-- C9 witness: in the two-owner scenario the child `/r/sub` is enqueued
under the album adopted for `/r` (owner 2's row 7). -/
theorem claim_C9_parent_linkage_witness :
    ∃ a, (processDir fsOwners noScanFaults user1 2 dbOwners [] ⟨"/r", none⟩).albums
        = [a]
      ∧ (ScanInfo.mk "/r/sub" (some 7)).parentId = some a.albumID
      ∧ a ∈ (processDir fsOwners noScanFaults user1 2 dbOwners []
          ⟨"/r", none⟩).db.albums :=
  claim_C9_parent_linkage.1 fsOwners noScanFaults user1 2 dbOwners [] ⟨"/r", none⟩
    ⟨"/r/sub", some 7⟩ (by decide)

/-- C9 counterexample: owner 2 already holds row 7 at path `/r`; user 1
scans `/r`.  The committed album for `/r/sub` (owner 1, row 9) has
parent identifier 7, and the unique row with identifier 7 belongs to
owner 2 — not to the scanning owner — refuting "the parent is itself an
album row belonging to the same owner". -/
theorem claim_C9_counterexample :
    (findAlbumsForUser fsOwners noScanFaults noRecFaults user1 2 3 dbOwners
        []).db.albums
      = [⟨7, "r", none, 2, "/r"⟩, ⟨8, "r", none, 1, "/r"⟩,
         ⟨9, "sub", some 7, 1, "/r/sub"⟩]
    ∧ user1.userID = 1 := by
  decide

/-- C10: the re-read after the upsert queries by path alone (no owner
filter): in the two-owner scenario it adopts owner 2's pre-existing row
7 for user 1's root `/r`, that foreign row lands in the returned album
list (the reconciliation keep-set), and its identifier 7 is propagated
as the parent of the child album `/r/sub`. -/
theorem claim_C10_cross_owner_adoption :
    (findAlbumsForUser fsOwners noScanFaults noRecFaults user1 2 3 dbOwners []).albums
      = [⟨7, "r", none, 2, "/r"⟩, ⟨9, "sub", some 7, 1, "/r/sub"⟩]
    ∧ (dbOwners.insertIgnoreAlbum (pathBase "/r") none user1.userID
        "/r").selectAlbumByPath "/r" = some ⟨7, "r", none, 2, "/r"⟩
    ∧ (Album.mk 7 "r" none 2 "/r").ownerID ≠ user1.userID := by
  decide
